import Mathlib

/-!
Verification of the switchover (swo) replication engine, translated from
`swo/execute.go`.  Pure data transformations (change-log deduplication,
row classification in `fetch`, id coercion in `intIDs`) are embedded as
executable functions; the effectful protocol steps (`LoopSync`,
`SyncChanges`, `FinalSync`, the pause-coordination poll loop) are embedded
as step functions over explicit outcome oracles that record the sequence
of completed database effects as an event trace.
-/

set_option maxHeartbeats 1000000

namespace Swo

/-! ## Row tracker

The tracker type and its primitive operations live in `swo/rowtracker.go`,
which is not part of the sources under verification; only `execute.go`
(its caller) is.  They are therefore modelled from the specification. -/

/-- Modelled from the spec: the row tracker of §3 — "a mapping
`table_name → set<primary_key_string>` reflecting what currently exists in
the destination, plus a pending delta (additions and removals staged during
one drain iteration)".  `base` is the committed set, `adds`/`dels` the
pending delta, all keyed by `(table, id)` pairs. -/
structure rowTracker where
  base : List (String × String)
  adds : List (String × String)
  dels : List (String × String)
deriving DecidableEq

/-- Modelled from the spec: `Exists(t,id)` reads the base set through the
pending delta — a key exists when it is in the base set or the pending
additions and not in the pending removals. -/
def rowTracker.Exists (rt : rowTracker) (t i : String) : Bool :=
  decide ((((t, i) ∈ rt.base) ∨ ((t, i) ∈ rt.adds)) ∧ ((t, i) ∉ rt.dels))

/-- Modelled from the spec: `Insert(t,id)` records the key in the tracker's
pending additions (and cancels any pending removal of the same key, so the
key reads as existing afterwards). -/
def rowTracker.Insert (rt : rowTracker) (t i : String) : rowTracker :=
  { rt with
    adds := (t, i) :: rt.adds
    dels := rt.dels.filter (fun k => decide (k ≠ (t, i))) }

/-- Modelled from the spec: `Delete(t,id)` records the key in the tracker's
pending removals (and cancels any pending addition of the same key, so the
key reads as absent afterwards). -/
def rowTracker.Delete (rt : rowTracker) (t i : String) : rowTracker :=
  { rt with
    adds := rt.adds.filter (fun k => decide (k ≠ (t, i)))
    dels := (t, i) :: rt.dels }

theorem rowTracker.Exists_eq_true (rt : rowTracker) (t i : String) :
    rt.Exists t i = true ↔
      ((((t, i) ∈ rt.base) ∨ ((t, i) ∈ rt.adds)) ∧ ((t, i) ∉ rt.dels)) := by
  simp [rowTracker.Exists]

/-- Inserting one key leaves every other key's view of the tracker
(existence, pending additions, pending removals) unchanged. -/
theorem rowTracker.Insert_preserves (rt : rowTracker) {t i t' i' : String}
    (h : (t, i) ≠ (t', i')) :
    (rt.Insert t' i').Exists t i = rt.Exists t i ∧
    ((t, i) ∈ (rt.Insert t' i').adds ↔ (t, i) ∈ rt.adds) ∧
    ((t, i) ∈ (rt.Insert t' i').dels ↔ (t, i) ∈ rt.dels) := by
  refine ⟨?_, ?_, ?_⟩
  · simp only [rowTracker.Exists, rowTracker.Insert]
    rw [decide_eq_decide]
    simp [List.mem_filter, h]
  · simp [rowTracker.Insert, h]
  · simp [rowTracker.Insert, List.mem_filter, h]

/-- Deleting one key leaves every other key's view of the tracker
unchanged. -/
theorem rowTracker.Delete_preserves (rt : rowTracker) {t i t' i' : String}
    (h : (t, i) ≠ (t', i')) :
    (rt.Delete t' i').Exists t i = rt.Exists t i ∧
    ((t, i) ∈ (rt.Delete t' i').adds ↔ (t, i) ∈ rt.adds) ∧
    ((t, i) ∈ (rt.Delete t' i').dels ↔ (t, i) ∈ rt.dels) := by
  refine ⟨?_, ?_, ?_⟩
  · simp only [rowTracker.Exists, rowTracker.Delete]
    rw [decide_eq_decide]
    simp [List.mem_filter, h]
  · simp [rowTracker.Delete, List.mem_filter, h]
  · simp [rowTracker.Delete, h]

theorem rowTracker.Insert_Exists_self (rt : rowTracker) (t i : String) :
    (rt.Insert t i).Exists t i = true := by
  simp [rowTracker.Exists, rowTracker.Insert, List.mem_filter]

theorem rowTracker.Insert_mem_adds_self (rt : rowTracker) (t i : String) :
    (t, i) ∈ (rt.Insert t i).adds := by
  simp [rowTracker.Insert]

theorem rowTracker.Delete_Exists_self (rt : rowTracker) (t i : String) :
    (rt.Delete t i).Exists t i = false := by
  simp [rowTracker.Exists, rowTracker.Delete]

theorem rowTracker.Delete_mem_dels_self (rt : rowTracker) (t i : String) :
    (t, i) ∈ (rt.Delete t i).dels := by
  simp [rowTracker.Delete]

/-! ## fetch (`rowTracker.fetch`, execute.go lines 489–529)

`fetch` receives the change-log ids pending for one table and the rows the
source query returned for those ids (`rows` is the result set of
`table.SelectRowsQuery()`: `(id, row data)` for each id that still exists
in the source).  The first loop classifies every returned row as UPDATE or
INSERT against the tracker; the second loop stages a DELETE for every
requested id that was not returned and is known to the tracker. -/

/-- Row staged for apply, mirroring `syncRow{table, id, data}`. -/
structure syncRow where
  table : String
  id : String
  data : String
deriving DecidableEq

/-- Mirror of `syncData` (the `t` field is dropped; the table is a
parameter everywhere it is used). -/
structure syncData where
  toInsert : List syncRow
  toUpdate : List syncRow
  toDelete : List String
deriving DecidableEq

/-- First loop of `fetch` (`for rows.Next()`): classify each returned row
against the tracker — known id ⇒ UPDATE, unknown id ⇒ INSERT plus
`rt.Insert`.  Returns the updated tracker, the UPDATE batch and the INSERT
batch in arrival order. -/
def fetchRows (tname : String) : rowTracker → List (String × String) →
    rowTracker × List syncRow × List syncRow
  | rt, [] => (rt, [], [])
  | rt, (i, d) :: rest =>
    if rt.Exists tname i then
      let res := fetchRows tname rt rest
      (res.1, ⟨tname, i, d⟩ :: res.2.1, res.2.2)
    else
      let res := fetchRows tname (rt.Insert tname i) rest
      (res.1, res.2.1, ⟨tname, i, d⟩ :: res.2.2)

/-- Second loop of `fetch` (`for _, id := range ids`): every requested id
not present in `old` (the ids the source returned, Go's `existsInOld`) and
known to the tracker is staged as a DELETE via `rt.Delete`; ids unknown to
the tracker are skipped. -/
def fetchDeletes (tname : String) (old : List String) : rowTracker → List String →
    rowTracker × List String
  | rt, [] => (rt, [])
  | rt, i :: rest =>
    if i ∈ old then fetchDeletes tname old rt rest
    else if rt.Exists tname i then
      let res := fetchDeletes tname old (rt.Delete tname i) rest
      (res.1, i :: res.2)
    else fetchDeletes tname old rt rest

/-- `rowTracker.fetch`: both loops in sequence, assembling the `syncData`
batches (error paths of the Go code, which abort the drain iteration, are
outside this pure model). -/
def fetch (tname : String) (rt : rowTracker) (rows : List (String × String))
    (ids : List String) : rowTracker × syncData :=
  let r1 := fetchRows tname rt rows
  let r2 := fetchDeletes tname (rows.map Prod.fst) r1.1 ids
  (r2.1, { toInsert := r1.2.2, toUpdate := r1.2.1, toDelete := r2.2 })

/-- Keys not mentioned in the returned rows are untouched by the first
loop of `fetch`. -/
theorem fetchRows_preserves (tname t i : String) (rows : List (String × String)) :
    ∀ rt : rowTracker, (∀ p ∈ rows, (t, i) ≠ (tname, p.1)) →
      ((fetchRows tname rt rows).1.Exists t i = rt.Exists t i ∧
       ((t, i) ∈ (fetchRows tname rt rows).1.adds ↔ (t, i) ∈ rt.adds) ∧
       ((t, i) ∈ (fetchRows tname rt rows).1.dels ↔ (t, i) ∈ rt.dels)) := by
  induction rows with
  | nil => intro rt _; simp [fetchRows]
  | cons p rest ih =>
    rcases p with ⟨j, d⟩
    intro rt h
    have hne : (t, i) ≠ (tname, j) := h (j, d) (by simp)
    have hrest : ∀ p ∈ rest, (t, i) ≠ (tname, p.1) := fun p hp => h p (by simp [hp])
    by_cases hex : rt.Exists tname j = true
    · simp only [fetchRows, if_pos hex]
      exact ih rt hrest
    · simp only [fetchRows, if_neg hex]
      have hp := rowTracker.Insert_preserves rt hne
      have hi := ih (rt.Insert tname j) hrest
      exact ⟨hi.1.trans hp.1, hi.2.1.trans hp.2.1, hi.2.2.trans hp.2.2⟩

/-- Every row whose id the tracker already knows is staged as an UPDATE by
the first loop of `fetch`. -/
theorem fetchRows_update_mem (tname : String) (rows : List (String × String)) :
    ∀ (rt : rowTracker) (i d : String), (rows.map Prod.fst).Nodup →
      (i, d) ∈ rows → rt.Exists tname i = true →
      syncRow.mk tname i d ∈ (fetchRows tname rt rows).2.1 := by
  induction rows with
  | nil => intro rt i d _ hmem _; simp at hmem
  | cons p rest ih =>
    rcases p with ⟨j, e⟩
    intro rt i d hnd hmem hex
    simp only [List.map_cons, List.nodup_cons] at hnd
    rcases List.mem_cons.mp hmem with heq | hmem'
    · obtain ⟨rfl, rfl⟩ := Prod.mk.injEq .. ▸ heq
      simp only [fetchRows, if_pos hex]
      exact List.mem_cons_self _ _
    · have himem : i ∈ rest.map Prod.fst := List.mem_map.mpr ⟨(i, d), hmem', rfl⟩
      have hij : i ≠ j := fun h => hnd.1 (h ▸ himem)
      by_cases hje : rt.Exists tname j = true
      · simp only [fetchRows, if_pos hje]
        exact List.mem_cons_of_mem _ (ih rt i d hnd.2 hmem' hex)
      · simp only [fetchRows, if_neg hje]
        have hp := rowTracker.Insert_preserves rt
          (show (tname, i) ≠ (tname, j) by simp [hij])
        exact ih (rt.Insert tname j) i d hnd.2 hmem' (by rw [hp.1]; exact hex)

/-- Every row whose id the tracker does not know is staged as an INSERT by
the first loop of `fetch`, recorded in the pending additions, and reads as
existing afterwards. -/
theorem fetchRows_insert_mem (tname : String) (rows : List (String × String)) :
    ∀ (rt : rowTracker) (i d : String), (rows.map Prod.fst).Nodup →
      (i, d) ∈ rows → rt.Exists tname i = false →
      (syncRow.mk tname i d ∈ (fetchRows tname rt rows).2.2 ∧
       (tname, i) ∈ (fetchRows tname rt rows).1.adds ∧
       (fetchRows tname rt rows).1.Exists tname i = true) := by
  induction rows with
  | nil => intro rt i d _ hmem _; simp at hmem
  | cons p rest ih =>
    rcases p with ⟨j, e⟩
    intro rt i d hnd hmem hex
    simp only [List.map_cons, List.nodup_cons] at hnd
    rcases List.mem_cons.mp hmem with heq | hmem'
    · obtain ⟨rfl, rfl⟩ := Prod.mk.injEq .. ▸ heq
      have hnex : ¬ rt.Exists tname i = true := by simp [hex]
      simp only [fetchRows, if_neg hnex]
      have hrest : ∀ p ∈ rest, (tname, i) ≠ (tname, p.1) := by
        intro p hp
        have : p.1 ∈ rest.map Prod.fst := List.mem_map.mpr ⟨p, hp, rfl⟩
        simp only [ne_eq, Prod.mk.injEq, true_and]
        exact fun h => hnd.1 (h ▸ this)
      have hp := fetchRows_preserves tname tname i rest (rt.Insert tname i) hrest
      refine ⟨List.mem_cons_self _ _, ?_, ?_⟩
      · exact hp.2.1.mpr (rowTracker.Insert_mem_adds_self rt tname i)
      · rw [hp.1]; exact rowTracker.Insert_Exists_self rt tname i
    · have himem : i ∈ rest.map Prod.fst := List.mem_map.mpr ⟨(i, d), hmem', rfl⟩
      have hij : i ≠ j := fun h => hnd.1 (h ▸ himem)
      by_cases hje : rt.Exists tname j = true
      · simp only [fetchRows, if_pos hje]
        exact ih rt i d hnd.2 hmem' hex
      · simp only [fetchRows, if_neg hje]
        have hp := rowTracker.Insert_preserves rt
          (show (tname, i) ≠ (tname, j) by simp [hij])
        have hr := ih (rt.Insert tname j) i d hnd.2 hmem' (by rw [hp.1]; exact hex)
        exact ⟨List.mem_cons_of_mem _ hr.1, hr.2.1, hr.2.2⟩

/-- Every row staged as UPDATE or INSERT by the first loop of `fetch`
carries an id that the source returned. -/
theorem fetchRows_mem_ids (tname : String) (rows : List (String × String)) :
    ∀ (rt : rowTracker) (r : syncRow),
      (r ∈ (fetchRows tname rt rows).2.1 ∨ r ∈ (fetchRows tname rt rows).2.2) →
      r.id ∈ rows.map Prod.fst := by
  induction rows with
  | nil => intro rt r h; simp [fetchRows] at h
  | cons p rest ih =>
    rcases p with ⟨j, d⟩
    intro rt r h
    by_cases hje : rt.Exists tname j = true
    · simp only [fetchRows, if_pos hje] at h
      rcases h with h | h
      · rcases List.mem_cons.mp h with rfl | h'
        · simp
        · exact List.mem_cons_of_mem _ (ih rt r (Or.inl h'))
      · exact List.mem_cons_of_mem _ (ih rt r (Or.inr h))
    · simp only [fetchRows, if_neg hje] at h
      rcases h with h | h
      · exact List.mem_cons_of_mem _ (ih (rt.Insert tname j) r (Or.inl h))
      · rcases List.mem_cons.mp h with rfl | h'
        · simp
        · exact List.mem_cons_of_mem _ (ih (rt.Insert tname j) r (Or.inr h'))

/-- Keys whose id the source returned (or that are outside the requested
id list) are untouched by the second loop of `fetch`. -/
theorem fetchDeletes_preserves (tname t i : String) (old : List String)
    (ids : List String) :
    ∀ rt : rowTracker, (∀ j ∈ ids, (t, i) ≠ (tname, j) ∨ j ∈ old) →
      ((fetchDeletes tname old rt ids).1.Exists t i = rt.Exists t i ∧
       ((t, i) ∈ (fetchDeletes tname old rt ids).1.adds ↔ (t, i) ∈ rt.adds) ∧
       ((t, i) ∈ (fetchDeletes tname old rt ids).1.dels ↔ (t, i) ∈ rt.dels)) := by
  induction ids with
  | nil => intro rt _; simp [fetchDeletes]
  | cons j rest ih =>
    intro rt h
    have hrest : ∀ j' ∈ rest, (t, i) ≠ (tname, j') ∨ j' ∈ old :=
      fun j' hj' => h j' (by simp [hj'])
    by_cases hjo : j ∈ old
    · simp only [fetchDeletes, if_pos hjo]
      exact ih rt hrest
    · have hne : (t, i) ≠ (tname, j) := (h j (by simp)).resolve_right hjo
      by_cases hje : rt.Exists tname j = true
      · simp only [fetchDeletes, if_neg hjo, if_pos hje]
        have hp := rowTracker.Delete_preserves rt hne
        have hr := ih (rt.Delete tname j) hrest
        exact ⟨hr.1.trans hp.1, hr.2.1.trans hp.2.1, hr.2.2.trans hp.2.2⟩
      · simp only [fetchDeletes, if_neg hjo, if_neg hje]
        exact ih rt hrest

/-- A requested id the source did not return and the tracker knows is
staged as a DELETE, recorded in the pending removals, and reads as absent
afterwards. -/
theorem fetchDeletes_mem (tname : String) (old : List String) (ids : List String) :
    ∀ (rt : rowTracker) (i : String), ids.Nodup → i ∈ ids → i ∉ old →
      rt.Exists tname i = true →
      (i ∈ (fetchDeletes tname old rt ids).2 ∧
       (tname, i) ∈ (fetchDeletes tname old rt ids).1.dels ∧
       (fetchDeletes tname old rt ids).1.Exists tname i = false) := by
  induction ids with
  | nil => intro rt i _ hi; simp at hi
  | cons j rest ih =>
    intro rt i hnd hi hold hex
    simp only [List.nodup_cons] at hnd
    rcases List.mem_cons.mp hi with rfl | hi'
    · simp only [fetchDeletes, if_neg hold, if_pos hex]
      have hrest : ∀ j' ∈ rest, (tname, i) ≠ (tname, j') ∨ j' ∈ old := by
        intro j' hj'
        refine Or.inl ?_
        simp only [ne_eq, Prod.mk.injEq, true_and]
        exact fun h => hnd.1 (by rw [h]; exact hj')
      have hp := fetchDeletes_preserves tname tname i old rest (rt.Delete tname i) hrest
      refine ⟨List.mem_cons_self _ _, ?_, ?_⟩
      · exact hp.2.2.mpr (rowTracker.Delete_mem_dels_self rt tname i)
      · rw [hp.1]; exact rowTracker.Delete_Exists_self rt tname i
    · have hij : i ≠ j := fun h => hnd.1 (h ▸ hi')
      by_cases hjo : j ∈ old
      · simp only [fetchDeletes, if_pos hjo]
        exact ih rt i hnd.2 hi' hold hex
      · by_cases hje : rt.Exists tname j = true
        · simp only [fetchDeletes, if_neg hjo, if_pos hje]
          have hp := rowTracker.Delete_preserves rt
            (show (tname, i) ≠ (tname, j) by simp [hij])
          have hr := ih (rt.Delete tname j) i hnd.2 hi' hold (by rw [hp.1]; exact hex)
          exact ⟨List.mem_cons_of_mem _ hr.1, hr.2.1, hr.2.2⟩
        · simp only [fetchDeletes, if_neg hjo, if_neg hje]
          exact ih rt i hnd.2 hi' hold hex

/-- An id the tracker does not know is ignored by the second loop of
`fetch`: it is not staged for deletion and its key is untouched. -/
theorem fetchDeletes_ignored (tname : String) (old : List String) (ids : List String) :
    ∀ (rt : rowTracker) (i : String), rt.Exists tname i = false →
      (i ∉ (fetchDeletes tname old rt ids).2 ∧
       (fetchDeletes tname old rt ids).1.Exists tname i = rt.Exists tname i ∧
       ((tname, i) ∈ (fetchDeletes tname old rt ids).1.adds ↔ (tname, i) ∈ rt.adds) ∧
       ((tname, i) ∈ (fetchDeletes tname old rt ids).1.dels ↔ (tname, i) ∈ rt.dels)) := by
  induction ids with
  | nil => intro rt i _; simp [fetchDeletes]
  | cons j rest ih =>
    intro rt i hex
    by_cases hjo : j ∈ old
    · simp only [fetchDeletes, if_pos hjo]
      exact ih rt i hex
    · by_cases hij : i = j
      · subst hij
        simp only [fetchDeletes, if_neg hjo, if_neg (by simp [hex] :
          ¬ rt.Exists tname i = true)]
        exact ih rt i hex
      · by_cases hje : rt.Exists tname j = true
        · simp only [fetchDeletes, if_neg hjo, if_pos hje]
          have hp := rowTracker.Delete_preserves rt
            (show (tname, i) ≠ (tname, j) by simp [hij])
          have hr := ih (rt.Delete tname j) i (by rw [hp.1]; exact hex)
          refine ⟨?_, ?_, hr.2.2.1.trans hp.2.1, hr.2.2.2.trans hp.2.2⟩
          · intro hmem
            rcases List.mem_cons.mp hmem with h | h
            · exact hij h
            · exact hr.1 h
          · rw [hr.2.1, hp.1]
        · simp only [fetchDeletes, if_neg hjo, if_neg hje]
          exact ih rt i hex

/-- C1: in a drain iteration, `fetch` classifies each pending id of a table
as follows — id returned by the source and known to the tracker: staged as
UPDATE; returned and unknown: staged as INSERT and recorded in the pending
additions; not returned and known: staged as DELETE and recorded in the
pending removals; not returned and unknown: ignored (no staging, no tracker
change). -/
theorem fetch_classifies_changes (rt : rowTracker) (tname : String)
    (rows : List (String × String)) (ids : List String)
    (hnd : ids.Nodup) (hrd : (rows.map Prod.fst).Nodup) (i : String) :
    (∀ d, (i, d) ∈ rows → rt.Exists tname i = true →
        syncRow.mk tname i d ∈ (fetch tname rt rows ids).2.toUpdate) ∧
    (∀ d, (i, d) ∈ rows → rt.Exists tname i = false →
        syncRow.mk tname i d ∈ (fetch tname rt rows ids).2.toInsert ∧
        (tname, i) ∈ (fetch tname rt rows ids).1.adds) ∧
    (i ∈ ids → i ∉ rows.map Prod.fst → rt.Exists tname i = true →
        i ∈ (fetch tname rt rows ids).2.toDelete ∧
        (tname, i) ∈ (fetch tname rt rows ids).1.dels) ∧
    (i ∈ ids → i ∉ rows.map Prod.fst → rt.Exists tname i = false →
        i ∉ (fetch tname rt rows ids).2.toDelete ∧
        (∀ d, syncRow.mk tname i d ∉ (fetch tname rt rows ids).2.toUpdate ∧
              syncRow.mk tname i d ∉ (fetch tname rt rows ids).2.toInsert) ∧
        (fetch tname rt rows ids).1.Exists tname i = false ∧
        ((tname, i) ∈ (fetch tname rt rows ids).1.adds ↔ (tname, i) ∈ rt.adds) ∧
        ((tname, i) ∈ (fetch tname rt rows ids).1.dels ↔ (tname, i) ∈ rt.dels)) := by
  simp only [fetch]
  refine ⟨?_, ?_, ?_, ?_⟩
  · intro d hmem hex
    exact fetchRows_update_mem tname rows rt i d hrd hmem hex
  · intro d hmem hex
    have hr := fetchRows_insert_mem tname rows rt i d hrd hmem hex
    have hiold : i ∈ rows.map Prod.fst := List.mem_map.mpr ⟨(i, d), hmem, rfl⟩
    have hpre : ∀ j ∈ ids, (tname, i) ≠ (tname, j) ∨ j ∈ rows.map Prod.fst := by
      intro j _
      by_cases hji : j = i
      · exact Or.inr (hji ▸ hiold)
      · exact Or.inl (by simp [Ne.symm hji])
    have hp := fetchDeletes_preserves tname tname i (rows.map Prod.fst) ids
      (fetchRows tname rt rows).1 hpre
    exact ⟨hr.1, hp.2.1.mpr hr.2.1⟩
  · intro hid hnret hex
    have hpre : ∀ p ∈ rows, (tname, i) ≠ (tname, p.1) := by
      intro p hp
      have : p.1 ∈ rows.map Prod.fst := List.mem_map.mpr ⟨p, hp, rfl⟩
      simp only [ne_eq, Prod.mk.injEq, true_and]
      exact fun h => hnret (h ▸ this)
    have h1 := fetchRows_preserves tname tname i rows rt hpre
    have h2 := fetchDeletes_mem tname (rows.map Prod.fst) ids
      (fetchRows tname rt rows).1 i hnd hid hnret (by rw [h1.1]; exact hex)
    exact ⟨h2.1, h2.2.1⟩
  · intro _ hnret hex
    have hpre : ∀ p ∈ rows, (tname, i) ≠ (tname, p.1) := by
      intro p hp
      have : p.1 ∈ rows.map Prod.fst := List.mem_map.mpr ⟨p, hp, rfl⟩
      simp only [ne_eq, Prod.mk.injEq, true_and]
      exact fun h => hnret (h ▸ this)
    have h1 := fetchRows_preserves tname tname i rows rt hpre
    have h2 := fetchDeletes_ignored tname (rows.map Prod.fst) ids
      (fetchRows tname rt rows).1 i (by rw [h1.1]; exact hex)
    refine ⟨h2.1, ?_, ?_, h2.2.2.1.trans h1.2.1, h2.2.2.2.trans h1.2.2⟩
    · intro d
      constructor
      · intro hmem
        exact hnret (fetchRows_mem_ids tname rows rt (syncRow.mk tname i d) (Or.inl hmem))
      · intro hmem
        exact hnret (fetchRows_mem_ids tname rows rt (syncRow.mk tname i d) (Or.inr hmem))
    · rw [h2.2.1, h1.1]; exact hex

/-- Concrete tracker used to witness the `fetch` classification. -/
def rtW : rowTracker := ⟨[("t", "1"), ("t", "3")], [], []⟩

/-- Concrete source result set used to witness the `fetch` classification. -/
def rowsW : List (String × String) := [("1", "d1"), ("2", "d2")]

/-- Concrete pending-id list used to witness the `fetch` classification. -/
def idsW : List String := ["1", "2", "3", "4"]

/-- Witness for C1 at a concrete drain: id "1" exists in source and tracker,
so it is staged as an UPDATE. -/
theorem fetch_classifies_changes_witness :
    syncRow.mk "t" "1" "d1" ∈ (fetch "t" rtW rowsW idsW).2.toUpdate :=
  (fetch_classifies_changes rtW "t" rowsW idsW (by decide) (by decide) "1").1
    "d1" (by decide) (by decide)

/-! ## Change-log read and deduplication (`syncChangeLog`, lines 352–378)

`syncChangeLog` reads `change_log` rows via `QueryFunc` and deduplicates
on the `(table_name, row_id)` pair with the `changes` set; the callback
returns early when the pair was already seen, BEFORE appending the entry's
change-log id to `changeIDs`. -/

/-- One `change_log` row: `(id, table_name, row_id)`. -/
structure ChangeRow where
  id : Int
  table : String
  rowId : String
deriving DecidableEq

/-- Query string used to read the change log (line 363); note it carries
no ORDER BY clause, so rows arrive in whatever order the source returns
them. -/
def selectChangeLogQuery : String := "select id, table_name, row_id from change_log"

/-- Read loop of `syncChangeLog`: `seen` is the `changes` set accumulated
so far; a row whose `(table, row_id)` pair is already in `seen` is skipped
entirely (its id is NOT appended), otherwise the pair is recorded and the
row's id appended to `changeIDs`.  Returns the final `changeIDs`. -/
def syncChangeLogRead : List ChangeRow → List (String × String) → List Int
  | [], _ => []
  | r :: rest, seen =>
    if (r.table, r.rowId) ∈ seen then syncChangeLogRead rest seen
    else r.id :: syncChangeLogRead rest ((r.table, r.rowId) :: seen)

/-- Counterexample for C2: with two change-log entries for the same
`(table, row_id)` pair, the id of the second entry is present at read time
but absent from the returned list, so the returned list does not contain
every change-log id present. -/
theorem syncChangeLogRead_drops_duplicate_id :
    (2 : Int) ∈ ([⟨1, "a", "x"⟩, ⟨2, "a", "x"⟩] : List ChangeRow).map ChangeRow.id ∧
    (2 : Int) ∉ syncChangeLogRead [⟨1, "a", "x"⟩, ⟨2, "a", "x"⟩] [] := by
  decide

/-- C2 (amended): the list of change-log ids returned by the read loop
contains exactly the ids of first occurrences — an id is returned iff it
belongs to a row whose `(table, row_id)` pair is not in the initial seen
set and is not shared with any earlier row; ids of entries whose pair was
already seen are dropped (and hence not deleted in this iteration). -/
theorem syncChangeLogRead_first_occurrence_ids :
    ∀ (rows : List ChangeRow) (seen : List (String × String)) (i : Int),
      i ∈ syncChangeLogRead rows seen ↔
        ∃ pre r post, rows = pre ++ r :: post ∧ r.id = i ∧
          (r.table, r.rowId) ∉ seen ∧
          ∀ r' ∈ pre, (r'.table, r'.rowId) ≠ (r.table, r.rowId) := by
  intro rows
  induction rows with
  | nil =>
    intro seen i
    simp only [syncChangeLogRead, List.not_mem_nil, false_iff]
    rintro ⟨pre, r, post, heq, -, -, -⟩
    exact List.not_mem_nil r (heq ▸ List.mem_append_right pre (List.mem_cons_self r post))
  | cons r0 rest ih =>
    intro seen i
    by_cases h0 : (r0.table, r0.rowId) ∈ seen
    · rw [syncChangeLogRead, if_pos h0, ih]
      constructor
      · rintro ⟨pre, r, post, heq, hid, hseen, hpre⟩
        refine ⟨r0 :: pre, r, post, by rw [heq]; rfl, hid, hseen, ?_⟩
        intro r' hr'
        rcases List.mem_cons.mp hr' with rfl | hr''
        · exact fun h => hseen (h ▸ h0)
        · exact hpre r' hr''
      · rintro ⟨pre, r, post, heq, hid, hseen, hpre⟩
        cases pre with
        | nil =>
          simp only [List.nil_append, List.cons.injEq] at heq
          exact absurd (heq.1 ▸ h0) hseen
        | cons p pre' =>
          simp only [List.cons_append, List.cons.injEq] at heq
          exact ⟨pre', r, post, heq.2, hid, hseen,
            fun r' hr' => hpre r' (List.mem_cons_of_mem p hr')⟩
    · rw [syncChangeLogRead, if_neg h0, List.mem_cons, ih]
      constructor
      · rintro (heq | ⟨pre, r, post, hrest, hid, hseen, hpre⟩)
        · exact ⟨[], r0, rest, rfl, heq.symm, h0, by simp⟩
        · have hs : (r.table, r.rowId) ∉ seen :=
            fun h => hseen (List.mem_cons_of_mem _ h)
          have hr0 : (r0.table, r0.rowId) ≠ (r.table, r.rowId) := by
            intro h
            exact hseen (h ▸ List.mem_cons_self _ _)
          refine ⟨r0 :: pre, r, post, by rw [hrest]; rfl, hid, hs, ?_⟩
          intro r' hr'
          rcases List.mem_cons.mp hr' with rfl | hr''
          · exact hr0
          · exact hpre r' hr''
      · rintro ⟨pre, r, post, heq, hid, hseen, hpre⟩
        cases pre with
        | nil =>
          simp only [List.nil_append, List.cons.injEq] at heq
          refine Or.inl ?_
          rw [← heq.1] at hid
          exact hid.symm
        | cons p pre' =>
          simp only [List.cons_append, List.cons.injEq] at heq
          refine Or.inr ⟨pre', r, post, heq.2, hid, ?_, ?_⟩
          · intro hmem
            rcases List.mem_cons.mp hmem with hp | hp
            · have hne := hpre p (List.mem_cons_self p pre')
              rw [← heq.1] at hne
              exact hne hp.symm
            · exact hseen hp
          · exact fun r' hr' => hpre r' (List.mem_cons_of_mem p hr')

/-- Counterexample for C9: the change-log query carries no ORDER BY
clause, and when the source delivers rows in descending id order the ids
are consumed in that (non-ascending) order. -/
theorem syncChangeLog_query_unordered :
    ¬ ("order by".data <:+: selectChangeLogQuery.data) ∧
    syncChangeLogRead [⟨2, "a", "x"⟩, ⟨1, "a", "y"⟩] [] = [2, 1] ∧
    ¬ List.Sorted (· ≤ ·) (syncChangeLogRead [⟨2, "a", "x"⟩, ⟨1, "a", "y"⟩] []) := by
  refine ⟨by decide, by decide, ?_⟩
  intro h
  rw [show syncChangeLogRead [⟨2, "a", "x"⟩, ⟨1, "a", "y"⟩] [] = [2, 1] from by decide] at h
  have := List.sorted_cons.mp h
  have h21 := this.1 1 (by simp)
  omega

/-- C9 (amended): change-log ids are consumed in the order the source
delivers the rows — the returned id list is a sublist of the arriving ids
— and is ascending only when the source happens to deliver the rows in
ascending id order. -/
theorem syncChangeLogRead_preserves_arrival_order :
    ∀ (rows : List ChangeRow) (seen : List (String × String)),
      (syncChangeLogRead rows seen).Sublist (rows.map ChangeRow.id) ∧
      (List.Sorted (· ≤ ·) (rows.map ChangeRow.id) →
        List.Sorted (· ≤ ·) (syncChangeLogRead rows seen)) := by
  intro rows
  induction rows with
  | nil => intro seen; simp [syncChangeLogRead]
  | cons r0 rest ih =>
    intro seen
    refine ⟨?_, ?_⟩
    · by_cases h0 : (r0.table, r0.rowId) ∈ seen
      · rw [syncChangeLogRead, if_pos h0]
        exact (ih seen).1.cons r0.id
      · rw [syncChangeLogRead, if_neg h0]
        exact (ih ((r0.table, r0.rowId) :: seen)).1.cons₂ r0.id
    · intro hs
      rw [List.map_cons] at hs
      have hs' := List.sorted_cons.mp hs
      by_cases h0 : (r0.table, r0.rowId) ∈ seen
      · rw [syncChangeLogRead, if_pos h0]
        exact (ih seen).2 hs'.2
      · rw [syncChangeLogRead, if_neg h0]
        refine List.sorted_cons.mpr ⟨?_, (ih _).2 hs'.2⟩
        intro b hb
        exact hs'.1 b ((ih _).1.subset hb)

/-! ## Drain iteration (`LoopSync`, lines 302–331) and the converge loop
(`SyncChanges`, lines 136–165)

The effectful steps of one drain iteration are modelled as a step function
over an oracle that fixes the outcome of each database interaction.  The
result records the values `LoopSync` returns (`ok`, `pend`, whether `err`
was non-nil) together with the trace of completed effects in order:
`beginTxPair` (the `syncTx` pair opened), `syncLog` (`syncChangeLog`
returned without error), `commitSrc`/`commitDst` (that commit succeeded),
`deleteLog` (the `DELETE FROM change_log` outside the transactions ran
without error). -/

/-- Completed effects of one drain iteration, in the order `LoopSync`
performs them. -/
inductive SyncEvent where
  | beginTxPair
  | syncLog
  | commitSrc
  | commitDst
  | deleteLog
deriving DecidableEq

/-- Outcome oracle for one `LoopSync` call: `logIDs` is the `ids` slice
`syncChangeLog` hands back, the Booleans fix which database interactions
succeed. -/
structure LoopSyncOracle where
  beginOk : Bool
  logIDs : List Int
  logOk : Bool
  commitSrcOk : Bool
  commitDstOk : Bool
  deleteOk : Bool
deriving DecidableEq

/-- Return values and effect trace of one `LoopSync` call. -/
structure LoopSyncResult where
  ok : Nat
  pend : Nat
  errored : Bool
  trace : List SyncEvent
deriving DecidableEq

/-- Step model of `LoopSync` (lines 302–331): open the transaction pair,
run `syncChangeLog`, commit source, commit destination, then delete the
processed change-log rows outside the transactions.  Return values follow
the code exactly: `(0,0)` on begin failure, `(0,len ids)` on sync error,
`(len ids,0)` on source-commit failure, `(0,len ids)` on
destination-commit failure, `(len ids,0)` on delete failure or success. -/
def LoopSync (o : LoopSyncOracle) : LoopSyncResult :=
  if !o.beginOk then
    ⟨0, 0, true, []⟩
  else if !o.logOk then
    ⟨0, o.logIDs.length, true, [.beginTxPair]⟩
  else if !o.commitSrcOk then
    ⟨o.logIDs.length, 0, true, [.beginTxPair, .syncLog]⟩
  else if !o.commitDstOk then
    ⟨0, o.logIDs.length, true, [.beginTxPair, .syncLog, .commitSrc]⟩
  else if !o.deleteOk then
    ⟨o.logIDs.length, 0, true, [.beginTxPair, .syncLog, .commitSrc, .commitDst]⟩
  else
    ⟨o.logIDs.length, 0, false, [.beginTxPair, .syncLog, .commitSrc, .commitDst, .deleteLog]⟩

/-- Full-success effect order of one drain iteration. -/
def drainCanonical : List SyncEvent :=
  [.beginTxPair, .syncLog, .commitSrc, .commitDst, .deleteLog]

/-- C3: every `LoopSync` run performs its effects in the order open pair →
`syncChangeLog` → commit source → commit destination → delete change-log
rows (the trace is always a prefix of that order), and the change-log
delete happens only in runs where the destination commit has already
succeeded (the full trace). -/
theorem loopSync_step_order (o : LoopSyncOracle) :
    (∃ k, (LoopSync o).trace = drainCanonical.take k) ∧
    (SyncEvent.deleteLog ∈ (LoopSync o).trace → (LoopSync o).trace = drainCanonical) := by
  rcases o with ⟨b, ids, l, cs, cd, dl⟩
  cases b <;> cases l <;> cases cs <;> cases cd <;> cases dl <;>
    first
      | exact ⟨⟨0, rfl⟩, fun h => absurd h (by simp [LoopSync, drainCanonical])⟩
      | exact ⟨⟨1, rfl⟩, fun h => absurd h (by simp [LoopSync, drainCanonical])⟩
      | exact ⟨⟨2, rfl⟩, fun h => absurd h (by simp [LoopSync, drainCanonical])⟩
      | exact ⟨⟨3, rfl⟩, fun h => absurd h (by simp [LoopSync, drainCanonical])⟩
      | exact ⟨⟨4, rfl⟩, fun h => absurd h (by simp [LoopSync, drainCanonical])⟩
      | exact ⟨⟨5, rfl⟩, fun _ => rfl⟩

/-- Decision `SyncChanges` takes after one iteration. -/
inductive SyncStep where
  | fatalAbort
  | retryLoop
  | finished
deriving DecidableEq

/-- What `SyncChanges` does to the row tracker after one iteration. -/
inductive TrackerAction where
  | rollback
  | commit
deriving DecidableEq

/-- Per-iteration decision of `SyncChanges` (lines 146–161): on error the
tracker is rolled back, then the loop aborts fatally iff `n > 0`;
otherwise the tracker is committed and the loop retries iff `n ≠ 0`. -/
def syncChangesStep (r : LoopSyncResult) : SyncStep × TrackerAction :=
  if r.errored then
    (if r.ok > 0 then (.fatalAbort, .rollback) else (.retryLoop, .rollback))
  else if r.ok ≠ 0 then (.retryLoop, .commit)
  else (.finished, .commit)

/-- Oracle for the failing input of C4: `syncChangeLog` succeeds with one
pending change-log id and the source (read-only) transaction commit then
fails. -/
def srcCommitFailOracle : LoopSyncOracle :=
  { beginOk := true, logIDs := [7], logOk := true,
    commitSrcOk := false, commitDstOk := true, deleteOk := true }

/-- C4 (code bug, evaluated at the failing input): when the source commit
fails, `LoopSync` returns `ok = len(ids) > 0`, so `SyncChanges` aborts
with the fatal "sync failure (commit without record)" error — yet the
trace shows that neither the source nor the destination transaction
committed, i.e. zero rows were committed on either side, the very case
the claim (and the error message itself) reserves for the transient
rollback-log-continue path. -/
theorem loopSync_src_commit_failure_marked_fatal :
    (LoopSync srcCommitFailOracle).ok = 1 ∧
    (LoopSync srcCommitFailOracle).errored = true ∧
    SyncEvent.commitSrc ∉ (LoopSync srcCommitFailOracle).trace ∧
    SyncEvent.commitDst ∉ (LoopSync srcCommitFailOracle).trace ∧
    syncChangesStep (LoopSync srcCommitFailOracle) =
      (SyncStep.fatalAbort, TrackerAction.rollback) := by
  decide

/-! ## Apply-step count checks (`rowTracker.apply` lines 436–459, delete
loop lines 423–431) -/

/-- Mirror of `rowTracker.apply`: an empty batch is skipped; otherwise the
batch is executed and the reported rows-affected count must equal the
batch size.  Returns `true` exactly when no error is returned. -/
def rtApply (rows : List syncRow) (execOk : Bool) (affected : Int) : Bool :=
  if rows.isEmpty then true
  else if !execOk then false
  else decide (affected = (rows.length : Int))

/-- One destination-side apply step of `syncChangeLog`: an UPDATE or
INSERT batch goes through `rt.apply`; a DELETE batch (always built
non-empty, line 407) is executed directly with the same count check
(lines 424–430). -/
inductive DstApply where
  | batch (rows : List syncRow) (execOk : Bool) (affected : Int)
  | delBatch (count : Nat) (execOk : Bool) (affected : Int)
deriving DecidableEq

/-- Whether one destination apply step passes its checks. -/
def dstApplyOk : DstApply → Bool
  | .batch rows execOk affected => rtApply rows execOk affected
  | .delBatch count execOk affected => execOk && decide (affected = (count : Int))

/-- The dst phase of `syncChangeLog` succeeds iff every apply step passes;
any failing step makes `syncChangeLog` return an error. -/
def runDstApplies (l : List DstApply) : Bool := l.all dstApplyOk

/-- An apply step whose reported rows-affected count disagrees with its
(non-empty) input batch size. -/
def mismatched : DstApply → Prop
  | .batch rows _ affected => rows ≠ [] ∧ affected ≠ (rows.length : Int)
  | .delBatch count _ affected => affected ≠ (count : Int)

theorem dstApplyOk_false_of_mismatched (a : DstApply) (h : mismatched a) :
    dstApplyOk a = false := by
  cases a with
  | batch rows execOk affected =>
    rcases h with ⟨hne, hban⟩
    have : rows.isEmpty = false := by
      cases rows with
      | nil => exact absurd rfl hne
      | cons x xs => rfl
    cases execOk <;> simp [dstApplyOk, rtApply, this, hban]
  | delBatch count execOk affected =>
    have h' : affected ≠ (count : Int) := h
    cases execOk <;> simp [dstApplyOk, h']

/-- `LoopSync` with the `syncChangeLog` outcome computed from the
destination apply phase. -/
def loopSyncWithApplies (beginOk : Bool) (ids : List Int) (applies : List DstApply)
    (commitSrcOk commitDstOk deleteOk : Bool) : LoopSyncResult :=
  LoopSync ⟨beginOk, ids, runDstApplies applies, commitSrcOk, commitDstOk, deleteOk⟩

/-- C5: if any apply step of a drain iteration (update, insert or delete
batch) reports a rows-affected count different from its input batch size,
the iteration returns an error and the destination transaction is never
committed. -/
theorem apply_count_mismatch_blocks_dst_commit
    (beginOk commitSrcOk commitDstOk deleteOk : Bool) (ids : List Int)
    (applies : List DstApply) (a : DstApply)
    (ha : a ∈ applies) (hbad : mismatched a) :
    (loopSyncWithApplies beginOk ids applies commitSrcOk commitDstOk deleteOk).errored = true ∧
    SyncEvent.commitDst ∉
      (loopSyncWithApplies beginOk ids applies commitSrcOk commitDstOk deleteOk).trace := by
  have h1 : dstApplyOk a = false := dstApplyOk_false_of_mismatched a hbad
  have h2 : runDstApplies applies = false := by
    cases hall : applies.all dstApplyOk with
    | false => exact hall
    | true =>
      have := List.all_eq_true.mp hall a ha
      rw [h1] at this
      exact absurd this (by simp)
  unfold loopSyncWithApplies
  cases beginOk <;> simp [LoopSync, h2]

/-- Witness for C5 at a concrete iteration: a single-row update batch
reporting zero rows affected blocks the destination commit. -/
theorem apply_count_mismatch_blocks_dst_commit_witness :
    (loopSyncWithApplies true [3] [.batch [⟨"t", "1", "d"⟩] true 0] true true true).errored
      = true ∧
    SyncEvent.commitDst ∉
      (loopSyncWithApplies true [3] [.batch [⟨"t", "1", "d"⟩] true 0] true true true).trace :=
  apply_count_mismatch_blocks_dst_commit true true true true [3]
    [.batch [⟨"t", "1", "d"⟩] true 0] (.batch [⟨"t", "1", "d"⟩] true 0)
    (by simp) (by refine ⟨by simp, by decide⟩)

/-! ## FinalSync critical section (`FinalSync`, lines 224–299)

The stop-the-world portion of `FinalSync` — from opening the paired
transactions to the source commit — modelled as a step function over an
outcome oracle.  Events marked durable (`commitDst`, `enableTriggersDst`,
`commitSrc`) are the points where either database is durably changed;
everything before `commitDst` is staged inside a transaction that the
deferred rollbacks discard on early return. -/

/-- Switchover state (the `switchover_state.current_state` values). -/
inductive SwoState where
  | idle
  | inProgress
  | useNextDb
deriving DecidableEq

/-- Completed steps of the `FinalSync` critical section, in code order. -/
inductive FinalEvent where
  | beginSrc
  | beginDst
  | lockSwitchover
  | readState
  | lastSyncStaged
  | readSequences
  | stageSequences
  | commitDst
  | enableTriggersDst
  | stageStateFlip
  | commitSrc
deriving DecidableEq

/-- Result of the `FinalSync` critical section: the distinguished
`swogrp.ErrDone` sentinel, the "not running" error, any other step error,
or success. -/
inductive FinalOutcome where
  | errDone
  | errNotRunning
  | stepError
  | success
deriving DecidableEq

/-- Outcome oracle for the `FinalSync` critical section: `state` is the
value read from `switchover_state`, the Booleans fix which steps succeed. -/
structure FinalCritOracle where
  beginSrcOk : Bool
  beginDstOk : Bool
  lockOk : Bool
  readStateOk : Bool
  state : SwoState
  lastSyncOk : Bool
  seqReadOk : Bool
  setSeqOk : Bool
  commitDstOk : Bool
  enableOk : Bool
  flipOk : Bool
  commitSrcOk : Bool
deriving DecidableEq

/-- Step model of `FinalSync` lines 224–299: begin source tx, begin
destination tx, take the global switchover advisory lock, read the
switchover state; return `ErrDone` on `use_next_db` and "not running" on
`idle`; otherwise run the last `syncChangeLog` on the held pair, read and
stage the sequence values, commit the destination, re-enable destination
triggers, stage the state flip, and commit the source. -/
def finalSyncCritical (o : FinalCritOracle) : FinalOutcome × List FinalEvent :=
  if !o.beginSrcOk then (.stepError, [])
  else if !o.beginDstOk then (.stepError, [.beginSrc])
  else if !o.lockOk then (.stepError, [.beginSrc, .beginDst])
  else if !o.readStateOk then (.stepError, [.beginSrc, .beginDst, .lockSwitchover])
  else
    match o.state with
    | .useNextDb => (.errDone, [.beginSrc, .beginDst, .lockSwitchover, .readState])
    | .idle => (.errNotRunning, [.beginSrc, .beginDst, .lockSwitchover, .readState])
    | .inProgress =>
      if !o.lastSyncOk then
        (.stepError, [.beginSrc, .beginDst, .lockSwitchover, .readState])
      else if !o.seqReadOk then
        (.stepError, [.beginSrc, .beginDst, .lockSwitchover, .readState, .lastSyncStaged])
      else if !o.setSeqOk then
        (.stepError, [.beginSrc, .beginDst, .lockSwitchover, .readState, .lastSyncStaged,
          .readSequences])
      else if !o.commitDstOk then
        (.stepError, [.beginSrc, .beginDst, .lockSwitchover, .readState, .lastSyncStaged,
          .readSequences, .stageSequences])
      else if !o.enableOk then
        (.stepError, [.beginSrc, .beginDst, .lockSwitchover, .readState, .lastSyncStaged,
          .readSequences, .stageSequences, .commitDst])
      else if !o.flipOk then
        (.stepError, [.beginSrc, .beginDst, .lockSwitchover, .readState, .lastSyncStaged,
          .readSequences, .stageSequences, .commitDst, .enableTriggersDst])
      else if !o.commitSrcOk then
        (.stepError, [.beginSrc, .beginDst, .lockSwitchover, .readState, .lastSyncStaged,
          .readSequences, .stageSequences, .commitDst, .enableTriggersDst, .stageStateFlip])
      else
        (.success, [.beginSrc, .beginDst, .lockSwitchover, .readState, .lastSyncStaged,
          .readSequences, .stageSequences, .commitDst, .enableTriggersDst, .stageStateFlip,
          .commitSrc])

/-- Events of the critical section that durably change one of the two
databases: the destination commit, the trigger re-enable (autocommitted on
the destination connection), and the source commit. -/
def durableMutation : FinalEvent → Bool
  | .commitDst => true
  | .enableTriggersDst => true
  | .commitSrc => true
  | _ => false

/-- C6: once the critical section reaches the switchover-state read, the
state `use_next_db` yields the `ErrDone` sentinel with no durable mutation
of either database, `idle` yields the "not running" error (equally without
mutation), and only `in_progress` continues past the read; in particular a
`FinalSync` on a state already reading `use_next_db` returns the sentinel
without mutating either database. -/
theorem finalSync_state_gate (o : FinalCritOracle)
    (h : o.beginSrcOk = true ∧ o.beginDstOk = true ∧ o.lockOk = true ∧
         o.readStateOk = true) :
    (o.state = .useNextDb →
      (finalSyncCritical o).1 = .errDone ∧
      ∀ e ∈ (finalSyncCritical o).2, durableMutation e = false) ∧
    (o.state = .idle →
      (finalSyncCritical o).1 = .errNotRunning ∧
      ∀ e ∈ (finalSyncCritical o).2, durableMutation e = false) ∧
    (o.state = .inProgress →
      (finalSyncCritical o).1 ≠ .errDone ∧
      (finalSyncCritical o).1 ≠ .errNotRunning) := by
  rcases o with ⟨b1, b2, b3, b4, st, c1, c2, c3, c4, c5, c6, c7⟩
  obtain ⟨e1, e2, e3, e4⟩ := h
  subst e1
  subst e2
  subst e3
  subst e4
  cases st <;> cases c1 <;> cases c2 <;> cases c3 <;> cases c4 <;> cases c5 <;>
    cases c6 <;> cases c7 <;> decide

/-- Concrete oracle for the C6 witness: everything up to the state read
succeeds and the state already reads `use_next_db`. -/
def doneStateOracle : FinalCritOracle :=
  { beginSrcOk := true, beginDstOk := true, lockOk := true, readStateOk := true,
    state := .useNextDb, lastSyncOk := true, seqReadOk := true, setSeqOk := true,
    commitDstOk := true, enableOk := true, flipOk := true, commitSrcOk := true }

/-- Witness for C6: on a state already reading `use_next_db`, the critical
section returns the sentinel and performs no durable mutation. -/
theorem finalSync_state_gate_witness :
    (finalSyncCritical doneStateOracle).1 = .errDone ∧
    ∀ e ∈ (finalSyncCritical doneStateOracle).2, durableMutation e = false :=
  (finalSync_state_gate doneStateOracle (by decide)).1 rfl

/-! ## Pause coordination (`Manager.DoExecute`, lines 101–123)

After `grp.Pause`, the driver polls `grp.Status()` every 10 ms, counts the
running tasks named "pause" and "resume-after" across all nodes, proceeds
when `pausing == 0 && waiting == len(nodes)`, and returns the "pause
failed" error when (the proceed condition failed and) `waiting == 0`.
The loop body never consults the ambient context. -/

/-- One node's view in `grp.Status()`: the names of its running tasks. -/
structure NodeStatus where
  tasks : List String
deriving DecidableEq

/-- A `grp.Status()` snapshot. -/
structure GroupStatus where
  nodes : List NodeStatus
deriving DecidableEq

/-- Total number of running tasks with the given name across all nodes
(the double counting loop of lines 105–115). -/
def countTask (s : GroupStatus) (name : String) : Nat :=
  (s.nodes.map (fun n => (n.tasks.filter (fun t => t == name)).length)).sum

/-- What the poll loop does with one status snapshot. -/
inductive PollOutcome where
  | proceed
  | abortPauseFailed
  | keepPolling
deriving DecidableEq

/-- The decision of lines 117–122 as a function of the two task counts
and the node count. -/
def pollOutcomeOf (pausing waiting n : Nat) : PollOutcome :=
  if pausing = 0 ∧ waiting = n then .proceed
  else if waiting = 0 then .abortPauseFailed
  else .keepPolling

/-- Decision taken on one `grp.Status()` snapshot. -/
def pollDecision (s : GroupStatus) : PollOutcome :=
  pollOutcomeOf (countTask s "pause") (countTask s "resume-after") s.nodes.length

theorem pollOutcomeOf_cases (p w n : Nat) :
    (pollOutcomeOf p w n = .proceed ↔ (p = 0 ∧ w = n)) ∧
    (pollOutcomeOf p w n = .abortPauseFailed ↔ (w = 0 ∧ ¬(p = 0 ∧ n = 0))) := by
  unfold pollOutcomeOf
  by_cases h1 : p = 0 ∧ w = n
  · rw [if_pos h1]
    constructor
    · simp [h1]
    · constructor
      · intro h; exact absurd h (by simp)
      · rintro ⟨hw, hn⟩
        exact absurd ⟨h1.1, by omega⟩ hn
  · rw [if_neg h1]
    by_cases h2 : w = 0
    · rw [if_pos h2]
      refine ⟨⟨fun h => absurd h (by simp), fun h => absurd h h1⟩, ?_⟩
      refine ⟨fun _ => ⟨h2, fun hc => h1 ⟨hc.1, ?_⟩⟩, fun _ => rfl⟩
      obtain ⟨-, hn⟩ := hc
      omega
    · rw [if_neg h2]
      constructor
      · constructor
        · intro h; exact absurd h (by simp)
        · intro h; exact absurd h h1
      · constructor
        · intro h; exact absurd h (by simp)
        · rintro ⟨hw, -⟩; exact absurd hw h2

/-- Counterexample for C7: a snapshot with one node whose only running
task is `pause` (pause count 1 > 0, resume-after count 0) makes the driver
abort with "pause failed", i.e. it aborts while a node still has a running
pause task. -/
theorem pollDecision_aborts_despite_pause_task :
    countTask ⟨[⟨["pause"]⟩]⟩ "pause" = 1 ∧
    pollDecision ⟨[⟨["pause"]⟩]⟩ = .abortPauseFailed := by
  decide

/-- C7 (amended): the driver proceeds exactly when no pause task is
running and the total resume-after count equals the node count; it aborts
with "pause failed" exactly when the resume-after count is zero and the
proceed condition fails (with zero nodes and zero pause tasks it
proceeds) — pause tasks still running do NOT prevent the abort. -/
theorem pollDecision_characterization (s : GroupStatus) :
    (pollDecision s = .proceed ↔
      (countTask s "pause" = 0 ∧ countTask s "resume-after" = s.nodes.length)) ∧
    (pollDecision s = .abortPauseFailed ↔
      (countTask s "resume-after" = 0 ∧
       ¬(countTask s "pause" = 0 ∧ s.nodes.length = 0))) :=
  pollOutcomeOf_cases (countTask s "pause") (countTask s "resume-after") s.nodes.length

/-- Poll loop of lines 103–123 over a finite run of ticker ticks: each
tick carries the ambient cancellation flag at that instant and the status
snapshot returned by `grp.Status()`.  The loop body of the source never
reads the context, so the flag is unused; `none` means the loop is still
polling after the given ticks. -/
def doExecutePoll : List (Bool × GroupStatus) → Option PollOutcome
  | [] => none
  | (_, s) :: rest =>
    match pollDecision s with
    | .proceed => some .proceed
    | .abortPauseFailed => some .abortPauseFailed
    | .keepPolling => doExecutePoll rest

/-- A snapshot mid-pause: one node still running its `pause` task with the
`resume-after` watchdog alongside, so the loop keeps polling. -/
def stillPausing : GroupStatus := ⟨[⟨["pause", "resume-after"]⟩]⟩

/-- Counterexample for C8: ticks whose cancellation flag is set do not
stop the poll loop — after two cancelled ticks it is still polling
(`none`), instead of aborting with the cancellation cause. -/
theorem doExecutePoll_ignores_cancelled_tick :
    doExecutePoll [(true, stillPausing), (true, stillPausing)] = none := by
  decide

/-- C8 (amended): the poll loop's behaviour depends only on the sequence
of status snapshots; the ambient cancellation flag carried by the ticks is
never consulted, so cancellation does not terminate the polling. -/
theorem doExecutePoll_cancellation_invariant (ts us : List (Bool × GroupStatus))
    (h : ts.map Prod.snd = us.map Prod.snd) :
    doExecutePoll ts = doExecutePoll us := by
  induction ts generalizing us with
  | nil =>
    cases us with
    | nil => rfl
    | cons u us' => simp at h
  | cons t ts' ih =>
    cases us with
    | nil => simp at h
    | cons u us' =>
      rcases t with ⟨c, s⟩
      rcases u with ⟨c', s'⟩
      simp only [List.map_cons, List.cons.injEq] at h
      obtain ⟨h1, h2⟩ := h
      cases h1
      simp only [doExecutePoll]
      cases pollDecision s
      · rfl
      · rfl
      · exact ih us' h2

/-- Witness for C8 (amended): a cancelled tick and an uncancelled tick
with the same snapshot drive the loop identically. -/
theorem doExecutePoll_cancellation_invariant_witness :
    doExecutePoll [(true, stillPausing)] = doExecutePoll [(false, stillPausing)] :=
  doExecutePoll_cancellation_invariant [(true, stillPausing)] [(false, stillPausing)] rfl

/-! ## Primary-key coercion (`Table.IDs` lines 461–469, `intIDs` lines
531–541)

`intIDs` converts each row-id string with `strconv.Atoi` and PANICS on any
conversion error; the panic is modelled by `Option.none`.  `Atoi` fails on
the empty string, on any string that is not an optional sign followed by
decimal digits, and (via `ErrRange`) when the value does not fit a 64-bit
int. -/

/-- Strip an optional leading `-` or `+` sign, returning whether the
value is negated and the remaining characters (the sign handling of
`strconv.Atoi`). -/
def stripSign : List Char → Bool × List Char
  | '-' :: r => (true, r)
  | '+' :: r => (false, r)
  | r => (false, r)

/-- Value of a digit string, most significant first. -/
def digitsVal (cs : List Char) : Int :=
  cs.foldl (fun n c => n * 10 + ((c.toNat : Int) - 48)) 0

/-- A syntactically valid integer literal for `strconv.Atoi`: an optional
sign followed by one or more decimal digits. -/
def intSyntax (s : String) : Bool :=
  let cs := (stripSign s.data).2
  !cs.isEmpty && cs.all Char.isDigit

/-- Model of Go's `strconv.Atoi` on a 64-bit platform: `none` on a
syntax error or a value outside `[-2^63, 2^63)` (`ErrRange`). -/
def atoi (s : String) : Option Int :=
  let p := stripSign s.data
  if p.2.isEmpty then none
  else if !p.2.all Char.isDigit then none
  else
    let v := if p.1 then -digitsVal p.2 else digitsVal p.2
    if v < -(2 ^ 63) ∨ (2 ^ 63 : Int) ≤ v then none
    else some v

/-- Mirror of `intIDs`: convert every id with `atoi`; the Go code panics
on the first conversion error, modelled as `none`. -/
def intIDs : List String → Option (List Int)
  | [] => some []
  | id₀ :: rest =>
    match atoi id₀ with
    | none => none
    | some v => (intIDs rest).map (fun l => v :: l)

/-- SQL parameter produced by `Table.IDs` (`sqlutil.IntArray`,
`sqlutil.UUIDArray`, `sqlutil.StringArray`). -/
inductive SQLParam where
  | intArray : List Int → SQLParam
  | uuidArray : List String → SQLParam
  | stringArray : List String → SQLParam
deriving DecidableEq

/-- The primary-key column descriptor (`Table.IDCol`); `colType` mirrors
the Go field `Type`. -/
structure IDColumn where
  colType : String
deriving DecidableEq

/-- The slice of the `Table` descriptor that `Table.IDs` uses. -/
structure Table where
  Name : String
  IDCol : IDColumn
deriving DecidableEq

/-- Mirror of `Table.IDs` (lines 461–469): integer and bigint key columns
go through `intIDs` (whose panic propagates, hence `none`); uuid and all
other column types pass the strings through unconverted and cannot fail. -/
def Table.IDs (t : Table) (ids : List String) : Option SQLParam :=
  if t.IDCol.colType = "integer" ∨ t.IDCol.colType = "bigint" then
    (intIDs ids).map SQLParam.intArray
  else if t.IDCol.colType = "uuid" then some (SQLParam.uuidArray ids)
  else some (SQLParam.stringArray ids)

theorem atoi_eq_none_of_invalid (s : String) (h : intSyntax s = false) :
    atoi s = none := by
  unfold intSyntax at h
  unfold atoi
  rcases Bool.and_eq_false_iff.mp h with h' | h'
  · rw [if_pos (by simpa using h')]
  · by_cases he : (stripSign s.data).2.isEmpty
    · rw [if_pos he]
    · rw [if_neg he, if_pos (by simp [h'])]

theorem intIDs_eq_none_of_mem (ids : List String) (i : String)
    (hi : i ∈ ids) (hbad : atoi i = none) : intIDs ids = none := by
  induction ids with
  | nil => simp at hi
  | cons j rest ih =>
    rcases List.mem_cons.mp hi with rfl | hi'
    · simp [intIDs, hbad]
    · unfold intIDs
      cases atoi j with
      | none => rfl
      | some v => rw [ih hi']; rfl

theorem intIDs_isSome_forall (ids : List String) (h : intIDs ids ≠ none) :
    ∀ i ∈ ids, (atoi i).isSome := by
  induction ids with
  | nil => simp
  | cons j rest ih =>
    intro i hi
    unfold intIDs at h
    rcases List.mem_cons.mp hi with rfl | hi'
    · cases ha : atoi i with
      | none => rw [ha] at h; exact absurd rfl h
      | some v => rfl
    · cases ha : atoi j with
      | none => rw [ha] at h; exact absurd rfl h
      | some v =>
        rw [ha] at h
        refine ih ?_ i hi'
        intro hn
        rw [hn] at h
        exact h rfl

/-- C10: for a table whose primary-key column type is `integer` or
`bigint`, `Table.IDs` (through `intIDs`) panics — modelled as `none` — as
soon as any row-id string is not a syntactically valid integer; and
whenever the conversion is total (no panic), every row id parses under
`atoi`.  A drain iteration over such a table is therefore total only when
every pending `change_log` row id parses as an integer. -/
theorem table_ids_int_panics_on_invalid (t : Table) (ids : List String)
    (htype : t.IDCol.colType = "integer" ∨ t.IDCol.colType = "bigint") :
    ((∃ i ∈ ids, intSyntax i = false) → Table.IDs t ids = none) ∧
    (Table.IDs t ids ≠ none → ∀ i ∈ ids, (atoi i).isSome) := by
  constructor
  · rintro ⟨i, hi, hbad⟩
    unfold Table.IDs
    rw [if_pos htype, intIDs_eq_none_of_mem ids i hi (atoi_eq_none_of_invalid i hbad)]
    rfl
  · intro h
    refine intIDs_isSome_forall ids ?_
    intro hn
    unfold Table.IDs at h
    rw [if_pos htype, hn] at h
    exact h rfl

/-- Witness for C10: a bigint-keyed table with the non-numeric row id
`"xy"` in the batch panics (returns `none`). -/
theorem table_ids_int_panics_on_invalid_witness :
    Table.IDs ⟨"alerts", ⟨"bigint"⟩⟩ ["12", "xy"] = none :=
  (table_ids_int_panics_on_invalid ⟨"alerts", ⟨"bigint"⟩⟩ ["12", "xy"]
    (Or.inr rfl)).1 ⟨"xy", by simp, by decide⟩

end Swo
